import Mathlib

/-!
Verification of the generated-column substitution rule
(`planner/core/rule_generate_column_substitute.go`).

The Go rule is embedded shallowly: the in-place mutation of expression
slots becomes value-returning folds, the `ExprColumnMap` (a Go map keyed
by expression pointers) becomes an association list deduplicated by
value, and the error return (always `nil` in the source) becomes an
`Option String` that is always `none`.  Helper operations from the
`expression` and `types` packages (deep equality, `EvalType`,
`Schema.ColumnIndex`, `ColInfo2Col`) are not part of the given source
tree; they are modelled from the spec as noted on each definition.
-/

set_option autoImplicit false

namespace GcSubstitute

/-- Coarse evaluation-type category of an expression
(`types.EvalType` in the source): integer, real, decimal, string,
datetime/timestamp, duration or JSON class, distinct from exact
width/precision. -/
inductive EvalType where
  | int
  | real
  | decimal
  | str
  | datetime
  | duration
  | json
  deriving DecidableEq

/-- Static type of an expression or column (`types.FieldType`).
`tpTag` stands for the MySQL type byte, `flen`/`collate` for the
width and collation attributes that `FieldType.Equal` compares, and
`evalTy` is the coarse category returned by `EvalType()`. -/
structure FieldType where
  tpTag : Nat
  flen : Nat
  collate : String
  evalTy : EvalType
  deriving DecidableEq

/-- Expression tree (`expression.Expression`): a column reference, a
scalar-function application (function name plus ordered arguments), or
a constant.  A column reference carries the column's unique identifier,
its table-column identifier and its static type. -/
inductive Expression where
  | column (uniqueID : Nat) (id : Nat) (retType : FieldType)
  | scalarFunc (funcName : String) (retType : FieldType) (args : List Expression)
  | constant (value : Int) (retType : FieldType)

mutual
/-- Decidable structural (Lean-level) equality for expressions. -/
def Expression.decEq : (a b : Expression) → Decidable (a = b)
  | .column u i t, .column u' i' t' =>
      if h : u = u' ∧ i = i' ∧ t = t' then
        .isTrue (by rw [h.1, h.2.1, h.2.2])
      else .isFalse (fun he => by cases he; exact h ⟨rfl, rfl, rfl⟩)
  | .column _ _ _, .scalarFunc _ _ _ => .isFalse (fun he => by cases he)
  | .column _ _ _, .constant _ _ => .isFalse (fun he => by cases he)
  | .scalarFunc _ _ _, .column _ _ _ => .isFalse (fun he => by cases he)
  | .scalarFunc n t as, .scalarFunc n' t' as' =>
      match Expression.decEqList as as' with
      | .isTrue hl =>
          if h : n = n' ∧ t = t' then .isTrue (by rw [h.1, h.2, hl])
          else .isFalse (fun he => by cases he; exact h ⟨rfl, rfl⟩)
      | .isFalse hl => .isFalse (fun he => by cases he; exact hl rfl)
  | .scalarFunc _ _ _, .constant _ _ => .isFalse (fun he => by cases he)
  | .constant _ _, .column _ _ _ => .isFalse (fun he => by cases he)
  | .constant _ _, .scalarFunc _ _ _ => .isFalse (fun he => by cases he)
  | .constant v t, .constant v' t' =>
      if h : v = v' ∧ t = t' then .isTrue (by rw [h.1, h.2])
      else .isFalse (fun he => by cases he; exact h ⟨rfl, rfl⟩)

/-- Decidable structural equality for expression lists. -/
def Expression.decEqList : (as bs : List Expression) → Decidable (as = bs)
  | [], [] => .isTrue rfl
  | [], _ :: _ => .isFalse (fun he => by cases he)
  | _ :: _, [] => .isFalse (fun he => by cases he)
  | a :: as, b :: bs =>
      match Expression.decEq a b, Expression.decEqList as bs with
      | .isTrue h1, .isTrue h2 => .isTrue (by rw [h1, h2])
      | .isFalse h1, _ => .isFalse (fun he => by cases he; exact h1 rfl)
      | _, .isFalse h2 => .isFalse (fun he => by cases he; exact h2 rfl)
end

instance : DecidableEq Expression := Expression.decEq

/-- `Expression.GetType`. -/
def Expression.getType : Expression → FieldType
  | .column _ _ t => t
  | .scalarFunc _ t _ => t
  | .constant _ t => t

mutual
/-- Modelled from the spec: `expression.Expression.Equal` (outside the
given source tree) is a deep structural equality that also accounts for
type/collation — not pointer identity. -/
def exprEqual : Expression → Expression → Bool
  | .column u _ t, .column u' _ t' => u == u' && decide (t = t')
  | .scalarFunc n t as, .scalarFunc n' t' as' =>
      n == n' && decide (t = t') && argsEqual as as'
  | .constant v t, .constant v' t' => v == v' && decide (t = t')
  | _, _ => false

/-- Pairwise deep equality of argument lists. -/
def argsEqual : List Expression → List Expression → Bool
  | [], [] => true
  | a :: as, b :: bs => exprEqual a b && argsEqual as bs
  | _, _ => false
end

/-- Schema column object (`expression.Column`): unique identifier,
table-column identifier, static type, and — for a generated column —
the attached defining expression (`VirtualExpr`). -/
structure Column where
  uniqueID : Nat
  id : Nat
  retType : FieldType
  virtualExpr : Option Expression
  deriving DecidableEq

/-- The column viewed as an expression (what `*expr = col` stores into
the slot). -/
def Column.toExpr (c : Column) : Expression :=
  .column c.uniqueID c.id c.retType

/-- Ordered output-column list of a plan node (`expression.Schema`). -/
structure Schema where
  columns : List Column
  deriving DecidableEq

/-- Modelled from the spec: `Schema.ColumnIndex` locates the target
column's position within the schema (the visibility check); `-1` means
the column is not visible there. -/
def columnIndex (s : Schema) (col : Column) : Int :=
  match s.columns.findIdx? (fun c => c.uniqueID == col.uniqueID) with
  | some i => (i : Int)
  | none => -1

/-- Table-column descriptor (`model.ColumnInfo`): identifier plus the
"is generated" and "stored-vs-virtual" flags. -/
structure ColumnInfo where
  id : Nat
  isGenerated : Bool
  generatedStored : Bool
  deriving DecidableEq

/-- Modelled from the spec: `expression.ColInfo2Col` resolves the
schema column object for a table-column descriptor, `none` when
resolution fails. -/
def colInfo2Col (cols : List Column) (ci : ColumnInfo) : Option Column :=
  cols.find? (fun c => c.id == ci.id)

/-- Candidate access path of a data source (`util.AccessPath`): either
a full table scan or an index exposing the ordered offsets of its key
columns into the table's column list. -/
structure AccessPath where
  isTablePath : Bool
  indexColOffsets : List Nat
  deriving DecidableEq

/-- One sort key (`util.ByItems`): the expression slot plus direction. -/
structure ByItem where
  expr : Expression
  desc : Bool
  deriving DecidableEq

/-- One aggregate function (`aggregation.AggFuncDesc`): name plus
argument slots. -/
structure AggFuncDesc where
  funcName : String
  args : List Expression
  deriving DecidableEq

/-- Logical plan node.  The variants the rule recognizes
(`DataSource`, `LogicalSelection`, `LogicalProjection`, `LogicalSort`,
`LogicalAggregation`) carry their expression-bearing fields; every
other node kind is `other`, an opaque pass-through.  Each node carries
its output schema and ordered child list. -/
inductive LogicalPlan where
  | dataSource (possibleAccessPaths : List AccessPath)
      (tableInfoColumns : List ColumnInfo) (schema : Schema)
      (children : List LogicalPlan)
  | selection (conditions : List Expression) (schema : Schema)
      (children : List LogicalPlan)
  | projection (exprs : List Expression) (schema : Schema)
      (children : List LogicalPlan)
  | sort (byItems : List ByItem) (schema : Schema)
      (children : List LogicalPlan)
  | aggregation (aggFuncs : List AggFuncDesc) (groupByItems : List Expression)
      (schema : Schema) (children : List LogicalPlan)
  | other (schema : Schema) (children : List LogicalPlan)

/-- `LogicalPlan.Schema()`. -/
def LogicalPlan.schema : LogicalPlan → Schema
  | .dataSource _ _ s _ => s
  | .selection _ s _ => s
  | .projection _ s _ => s
  | .sort _ s _ => s
  | .aggregation _ _ s _ => s
  | .other s _ => s

/-- `LogicalPlan.Children()`. -/
def LogicalPlan.children : LogicalPlan → List LogicalPlan
  | .dataSource _ _ _ cs => cs
  | .selection _ _ cs => cs
  | .projection _ _ cs => cs
  | .sort _ _ cs => cs
  | .aggregation _ _ _ cs => cs
  | .other _ cs => cs

/-- `ExprColumnMap`: map from defining expression to the generated
column it defines.  The Go map is keyed by expression pointers, and
each collected column owns exactly one `VirtualExpr` object, so the
map is embedded as an association list deduplicated by entry value,
iterated in insertion order. -/
abbrev ExprColumnMap := List (Expression × Column)

/-- `exprToColumn[col.VirtualExpr] = col`: duplicate keys collapse. -/
def mapInsert (m : ExprColumnMap) (k : Expression) (c : Column) : ExprColumnMap :=
  if (k, c) ∈ m then m else m ++ [(k, c)]

/-- Body of the innermost loop of `collectGenerateColumn` (lines 64-72
of the source): for one index key column's descriptor, record
`definingExpression → column` when the column is generated, not
stored, resolvable in the data source's schema, and its static type
exactly equals its defining expression's type. -/
def collectFromColInfo (schemaCols : List Column) (ci : ColumnInfo)
    (m : ExprColumnMap) : ExprColumnMap :=
  if ci.isGenerated && !ci.generatedStored then
    match colInfo2Col schemaCols ci with
    | some col =>
        match col.virtualExpr with
        | some ve => if col.retType = ve.getType then mapInsert m ve col else m
        | none => m
    | none => m
  else m

/-- Per-key-column loop body of `collectGenerateColumn`: resolve the
table-column descriptor by offset (`ds.tableInfo.Columns[idxPart.Offset]`;
an out-of-range offset contributes nothing) and process it. -/
def collectFromOffset (tableCols : List ColumnInfo) (schemaCols : List Column)
    (m : ExprColumnMap) (off : Nat) : ExprColumnMap :=
  match tableCols[off]? with
  | some ci => collectFromColInfo schemaCols ci m
  | none => m

/-- Per-access-path loop of `collectGenerateColumn`: full-scan paths
contribute nothing; index paths contribute each key column in order. -/
def collectFromPath (tableCols : List ColumnInfo) (schemaCols : List Column)
    (m : ExprColumnMap) (p : AccessPath) : ExprColumnMap :=
  if p.isTablePath then m
  else p.indexColOffsets.foldl (collectFromOffset tableCols schemaCols) m

mutual
/-- `collectGenerateColumn`: children first (in order), then, when the
node is a data source, every access path in order. -/
def collectGenerateColumn : LogicalPlan → ExprColumnMap → ExprColumnMap
  | .dataSource paths tcols sch cs, m =>
      paths.foldl (collectFromPath tcols sch.columns) (collectList cs m)
  | .selection _ _ cs, m => collectList cs m
  | .projection _ _ cs, m => collectList cs m
  | .sort _ _ cs, m => collectList cs m
  | .aggregation _ _ _ cs, m => collectList cs m
  | .other _ cs, m => collectList cs m

/-- Child loop of `collectGenerateColumn`. -/
def collectList : List LogicalPlan → ExprColumnMap → ExprColumnMap
  | [], m => m
  | p :: ps, m => collectList ps (collectGenerateColumn p m)
end

/-- `tryToSubstituteExpr` (lines 77-82 of the source): the Matcher.
Replace the slot's contents with the target column when the slot
deep-equals the candidate, the candidate's evaluation-type category is
the expected one, and the target column is visible in the schema;
otherwise leave the slot unchanged. -/
def tryToSubstituteExpr (expr : Expression) (candidateExpr : Expression)
    (tp : EvalType) (schema : Schema) (col : Column) : Expression :=
  if exprEqual expr candidateExpr && decide (candidateExpr.getType.evalTy = tp)
      && decide (columnIndex schema col ≠ -1) then
    col.toExpr
  else expr

/-- One `for candidateExpr, column := range exprToColumn` loop of
`tryToSubstituteExpr` calls over a single slot. -/
def substituteOverMap (m : ExprColumnMap) (e : Expression) (tp : EvalType)
    (schema : Schema) : Expression :=
  m.foldl (fun acc kc => tryToSubstituteExpr acc kc.1 tp schema kc.2) e

/-- The names `ast.EQ, ast.LT, ast.LE, ast.GT, ast.GE` of the binary
comparison operators. -/
def comparisonFuncNames : List String := ["eq", "lt", "le", "gt", "ge"]

/-- `substituteExpression` (lines 84-133 of the source).  The cached
hash that `expression.ReHashCode` recomputes is not part of the value
model, so the deferred rehash is the identity here. -/
def substituteExpression (cond : Expression) (m : ExprColumnMap)
    (schema : Schema) : Expression :=
  match cond with
  | .scalarFunc funcName retTp args =>
      if funcName ∈ comparisonFuncNames then
        match args with
        | [a0, a1] =>
            -- first loop: right operand, expected type from the left operand
            let a1' := substituteOverMap m a1 a0.getType.evalTy schema
            -- second loop: left operand, expected type from the (current) right operand
            let a0' := substituteOverMap m a0 a1'.getType.evalTy schema
            .scalarFunc funcName retTp [a0', a1']
        | _ => cond -- comparison operators are always binary
      else if funcName = "in" then
        match args with
        | a0 :: a1 :: rest =>
            let tp := a1.getType.evalTy
            -- can only substitute if all right-hand operands share one type
            let canSubstitute := (a1 :: rest).all (fun a => a.getType.evalTy == tp)
            if canSubstitute then
              .scalarFunc funcName retTp
                (substituteOverMap m a0 tp schema :: a1 :: rest)
            else cond
        | _ => cond -- an IN expression always has at least two operands
      else if funcName = "like" then
        match args with
        | a0 :: a1 :: rest =>
            .scalarFunc funcName retTp
              (substituteOverMap m a0 a1.getType.evalTy schema :: a1 :: rest)
        | _ => cond -- LIKE always has subject and pattern operands
      else if funcName = "or" ∨ funcName = "and" then
        match args with
        | [a0, a1] =>
            .scalarFunc funcName retTp
              [substituteExpression a0 m schema, substituteExpression a1 m schema]
        | _ => cond -- logical AND/OR are always binary
      else if funcName = "not" then
        match args with
        | [a0] => .scalarFunc funcName retTp [substituteExpression a0 m schema]
        | _ => cond -- unary NOT has exactly one operand
      else cond
  | _ => cond

/-- Inline check of the aggregation branch of `substitute`
(lines 163-166 and 171-174 of the source), transcribed separately from
`tryToSubstituteExpr` so that their equivalence can be stated. -/
def aggInlineSubstitute (e : Expression) (candidateExpr : Expression)
    (tp : EvalType) (schema : Schema) (col : Column) : Expression :=
  if exprEqual e candidateExpr && decide (candidateExpr.getType.evalTy = tp)
      && decide (columnIndex schema col ≠ -1) then
    col.toExpr
  else e

/-- Candidate loop of the aggregation branch over one slot. -/
def aggSubstituteOverMap (m : ExprColumnMap) (e : Expression) (tp : EvalType)
    (schema : Schema) : Expression :=
  m.foldl (fun acc kc => aggInlineSubstitute acc kc.1 tp schema kc.2) e

/-- Schema of the first child (`x.children[0].Schema()`); childless
projections do not occur in well-formed plans, so the fallback schema
is empty. -/
def headSchema : List LogicalPlan → Schema
  | [] => ⟨[]⟩
  | c :: _ => c.schema

mutual
/-- `substitute` (lines 135-183 of the source): dispatch on the node
kind, rewrite that node's expression slots, then recurse into every
child with the same map. -/
def substitute (lp : LogicalPlan) (m : ExprColumnMap) : LogicalPlan :=
  match lp with
  | .dataSource paths tcols sch cs =>
      .dataSource paths tcols sch (substituteList cs m)
  | .selection conds sch cs =>
      .selection (conds.map (fun cond => substituteExpression cond m sch)) sch
        (substituteList cs m)
  | .projection exprs sch cs =>
      .projection
        (exprs.map (fun e => substituteOverMap m e e.getType.evalTy (headSchema cs)))
        sch (substituteList cs m)
  | .sort byItems sch cs =>
      .sort
        (byItems.map (fun b =>
          { b with expr := substituteOverMap m b.expr b.expr.getType.evalTy sch }))
        sch (substituteList cs m)
  | .aggregation aggFuncs gbItems sch cs =>
      .aggregation
        (aggFuncs.map (fun f =>
          { f with args := f.args.map (fun a =>
              aggSubstituteOverMap m a a.getType.evalTy sch) }))
        (gbItems.map (fun g => aggSubstituteOverMap m g g.getType.evalTy sch))
        sch (substituteList cs m)
  | .other sch cs => .other sch (substituteList cs m)

/-- Child loop of `substitute`. -/
def substituteList : List LogicalPlan → ExprColumnMap → List LogicalPlan
  | [], _ => []
  | p :: ps, m => substitute p m :: substituteList ps m
end

/-- `optimize` (lines 40-47 of the source): collect the candidates,
short-circuit when there are none, otherwise run the substitution
pass.  The error component is always `none`, as in the source. -/
def optimize (lp : LogicalPlan) : LogicalPlan × Option String :=
  let exprToColumn := collectGenerateColumn lp []
  if exprToColumn.isEmpty then (lp, none)
  else (substitute lp exprToColumn, none)

/-- `name()`. -/
def ruleName : String := "generate_column_substitute"

/-! ### Declarative characterization of the collector -/

/-- A table-column descriptor yields the map entry `x` when it is
generated, not stored, resolves to `x`'s column in the schema, that
column's defining expression is `x`'s key, and the column's static
type exactly equals the defining expression's type. -/
def ciYields (schemaCols : List Column) (ci : ColumnInfo)
    (x : Expression × Column) : Bool :=
  ci.isGenerated && !ci.generatedStored
    && decide (colInfo2Col schemaCols ci = some x.2)
    && decide (x.2.virtualExpr = some x.1)
    && decide (x.2.retType = x.1.getType)

/-- One index key-column offset yields the map entry `x`. -/
def offsetYields (tableCols : List ColumnInfo) (schemaCols : List Column)
    (off : Nat) (x : Expression × Column) : Bool :=
  match tableCols[off]? with
  | some ci => ciYields schemaCols ci x
  | none => false

mutual
/-- The entry `x` is a substitution candidate somewhere in the plan:
some data-source node has a non-full-scan access path one of whose key
columns yields it. -/
def isCandidateIn : LogicalPlan → Expression × Column → Bool
  | .dataSource paths tcols sch cs, x =>
      isCandidateInList cs x ||
        paths.any (fun p =>
          !p.isTablePath &&
            p.indexColOffsets.any (fun off => offsetYields tcols sch.columns off x))
  | .selection _ _ cs, x => isCandidateInList cs x
  | .projection _ _ cs, x => isCandidateInList cs x
  | .sort _ _ cs, x => isCandidateInList cs x
  | .aggregation _ _ _ cs, x => isCandidateInList cs x
  | .other _ cs, x => isCandidateInList cs x

/-- The entry `x` is a candidate in one of the listed subtrees. -/
def isCandidateInList : List LogicalPlan → Expression × Column → Bool
  | [], _ => false
  | p :: ps, x => isCandidateIn p x || isCandidateInList ps x
end

/-! ### Side conditions used by the idempotence analysis -/

/-- Every entry of the map pairs a column with its own defining
expression's exact static type (guaranteed by the collector). -/
def MapTypeConsistent (m : ExprColumnMap) : Prop :=
  ∀ kc ∈ m, kc.2.retType = kc.1.getType

/-- No collected column, viewed as an expression, deep-equals any
candidate defining expression of the map: no generated column is
defined as a bare reference to another collected column. -/
def NoChainedCandidates (m : ExprColumnMap) : Prop :=
  ∀ kc ∈ m, ∀ kc' ∈ m, exprEqual kc.2.toExpr kc'.1 = false

/-! ### Concrete material for witnesses and counterexamples -/

/-- An integer field type. -/
def ftInt : FieldType := ⟨3, 11, "binary", .int⟩

/-- A string field type. -/
def ftStr : FieldType := ⟨15, 32, "utf8mb4_bin", .str⟩

/-- Base table column `a`. -/
def colA : Column := ⟨1, 1, ftInt, none⟩

/-- `a` as an expression. -/
def exprA : Expression := colA.toExpr

/-- Defining expression `a + 1` of the virtual generated column `c`. -/
def defExprC : Expression := .scalarFunc "plus" ftInt [exprA, .constant 1 ftInt]

/-- Virtual generated column `c` as `(a + 1)`, indexed. -/
def colC : Column := ⟨2, 2, ftInt, some defExprC⟩

/-- `c` as an expression. -/
def exprC : Expression := colC.toExpr

/-- Virtual generated column `d` as `(c)`: its defining expression is
a bare reference to the generated column `c`. -/
def colD : Column := ⟨3, 3, ftInt, some exprC⟩

/-- `d` as an expression. -/
def exprD : Expression := colD.toExpr

/-- Descriptor of `a`: not generated. -/
def ciA : ColumnInfo := ⟨1, false, false⟩

/-- Descriptor of `c`: generated, virtual. -/
def ciC : ColumnInfo := ⟨2, true, false⟩

/-- Descriptor of `d`: generated, virtual. -/
def ciD : ColumnInfo := ⟨3, true, false⟩

/-- Schema exposing `a` and `c`. -/
def schemaAC : Schema := ⟨[colA, colC]⟩

/-- Schema exposing `a`, `c` and `d`. -/
def schemaACD : Schema := ⟨[colA, colC, colD]⟩

/-- Data source over a table with columns `a`, `c`: a full-scan path
and an index on `c`. -/
def dsSimple : LogicalPlan :=
  .dataSource [⟨true, []⟩, ⟨false, [1]⟩] [ciA, ciC] schemaAC []

/-- Sort node over `dsSimple` keyed by the expression `a + 1`. -/
def planSimple : LogicalPlan :=
  .sort [⟨defExprC, false⟩] schemaAC [dsSimple]

/-- Data source over a table with columns `a`, `c`, `d`: a full-scan
path, an index on `d` and an index on `c` (in that order, so the
collected map lists the `d` entry first). -/
def dsChained : LogicalPlan :=
  .dataSource [⟨true, []⟩, ⟨false, [2]⟩, ⟨false, [1]⟩] [ciA, ciC, ciD] schemaACD []

/-- Sort node over `dsChained` keyed by the expression `a + 1`. -/
def planChained : LogicalPlan :=
  .sort [⟨defExprC, false⟩] schemaACD [dsChained]

/-- Sort keys of a plan node (for observing the counterexample). -/
def sortKeys : LogicalPlan → List ByItem
  | .sort items _ _ => items
  | _ => []

/-- Data source whose only access path is a full scan: nothing is
collected from it. -/
def dsNoIndex : LogicalPlan :=
  .dataSource [⟨true, []⟩] [ciA, ciC] schemaAC []

/-- Filter over `dsNoIndex`: the rule has no candidates here. -/
def planNoCandidates : LogicalPlan :=
  .selection [.scalarFunc "eq" ftInt [defExprC, .constant 5 ftInt]] schemaAC
    [dsNoIndex]

/-- A string-typed column used as a deliberately type-inconsistent map
value when observing the comparison substitution order. -/
def colS : Column := ⟨4, 4, ftStr, none⟩

/-- Candidate expression `a - 1` matching the right operand below. -/
def defExprR : Expression := .scalarFunc "minus" ftInt [exprA, .constant 1 ftInt]

/-- Map whose first entry rewrites `a - 1` to the string-typed column
`s` and whose second entry rewrites `a + 1` to `c`. -/
def obsMap : ExprColumnMap := [(defExprR, colS), (defExprC, colC)]

/-- Schema exposing `a`, `c` and `s`. -/
def obsSchema : Schema := ⟨[colA, colC, colS]⟩

instance (m : ExprColumnMap) : Decidable (NoChainedCandidates m) :=
  inferInstanceAs (Decidable (∀ kc ∈ m, ∀ kc' ∈ m, exprEqual kc.2.toExpr kc'.1 = false))

instance (m : ExprColumnMap) : Decidable (MapTypeConsistent m) :=
  inferInstanceAs (Decidable (∀ kc ∈ m, kc.2.retType = kc.1.getType))

/-! ### Helper lemmas: deep equality and the Matcher -/

/-- Deep equality is type-aware: equal expressions carry equal static
types. -/
theorem exprEqual_getType :
    ∀ {a b : Expression}, exprEqual a b = true → a.getType = b.getType
  | .column _ _ _, .column _ _ _, h => by
      simp only [exprEqual, Bool.and_eq_true, decide_eq_true_eq] at h
      simpa [Expression.getType] using h.2
  | .column _ _ _, .scalarFunc _ _ _, h => by simp [exprEqual] at h
  | .column _ _ _, .constant _ _, h => by simp [exprEqual] at h
  | .scalarFunc _ _ _, .column _ _ _, h => by simp [exprEqual] at h
  | .scalarFunc _ _ _, .scalarFunc _ _ _, h => by
      simp only [exprEqual, Bool.and_eq_true, decide_eq_true_eq] at h
      simpa [Expression.getType] using h.1.2
  | .scalarFunc _ _ _, .constant _ _, h => by simp [exprEqual] at h
  | .constant _ _, .column _ _ _, h => by simp [exprEqual] at h
  | .constant _ _, .scalarFunc _ _ _, h => by simp [exprEqual] at h
  | .constant _ _, .constant _ _, h => by
      simp only [exprEqual, Bool.and_eq_true, decide_eq_true_eq] at h
      simpa [Expression.getType] using h.2

/-- The Matcher as a propositional conditional. -/
theorem tryToSubstituteExpr_eq_ite (e k : Expression) (tp : EvalType)
    (s : Schema) (c : Column) :
    tryToSubstituteExpr e k tp s c =
      if exprEqual e k = true ∧ k.getType.evalTy = tp ∧ columnIndex s c ≠ -1
      then c.toExpr else e := by
  by_cases h : exprEqual e k = true ∧ k.getType.evalTy = tp ∧ columnIndex s c ≠ -1
  · obtain ⟨h1, h2, h3⟩ := h
    simp [tryToSubstituteExpr, h1, h2, h3]
  · rw [if_neg h]
    unfold tryToSubstituteExpr
    rw [if_neg]
    simp only [Bool.and_eq_true, decide_eq_true_eq]
    exact fun hc => h ⟨hc.1.1, hc.1.2, hc.2⟩

/-- A slot that deep-equals no candidate key is left unchanged by one
Matcher call. -/
theorem tryToSubstituteExpr_of_not_equal {e k : Expression} (tp : EvalType)
    (s : Schema) (c : Column) (h : exprEqual e k = false) :
    tryToSubstituteExpr e k tp s c = e := by
  rw [tryToSubstituteExpr_eq_ite, if_neg]
  intro hc
  rw [hc.1] at h
  simp at h

/-- One Matcher call either keeps the slot or stores the target
column. -/
theorem tryToSubstituteExpr_cases (e k : Expression) (tp : EvalType)
    (s : Schema) (c : Column) :
    tryToSubstituteExpr e k tp s c = e ∨ tryToSubstituteExpr e k tp s c = c.toExpr := by
  rw [tryToSubstituteExpr_eq_ite]
  split
  · exact Or.inr rfl
  · exact Or.inl rfl

/-- A type-consistent Matcher call preserves the slot's static type. -/
theorem tryToSubstituteExpr_getType {k : Expression} {c : Column}
    (e : Expression) (tp : EvalType) (s : Schema)
    (hwf : c.retType = k.getType) :
    (tryToSubstituteExpr e k tp s c).getType = e.getType := by
  rw [tryToSubstituteExpr_eq_ite]
  split
  · next h => rw [Column.toExpr, Expression.getType, hwf, exprEqual_getType h.1]
  · rfl

/-! ### Helper lemmas: the candidate loop over one slot -/

/-- Unfolding one step of the candidate loop. -/
theorem substituteOverMap_cons (kc : Expression × Column) (m : ExprColumnMap)
    (e : Expression) (tp : EvalType) (sch : Schema) :
    substituteOverMap (kc :: m) e tp sch =
      substituteOverMap m (tryToSubstituteExpr e kc.1 tp sch kc.2) tp sch := rfl

/-- A slot that deep-equals no candidate key is left unchanged by the
whole candidate loop. -/
theorem substituteOverMap_frozen {m : ExprColumnMap} {x : Expression}
    (tp : EvalType) (sch : Schema)
    (h : ∀ kc ∈ m, exprEqual x kc.1 = false) :
    substituteOverMap m x tp sch = x := by
  induction m with
  | nil => rfl
  | cons kc m ih =>
      rw [substituteOverMap_cons,
        tryToSubstituteExpr_of_not_equal tp sch kc.2 (h kc (List.mem_cons_self kc m))]
      exact ih (fun kc' hkc' => h kc' (List.mem_cons_of_mem kc hkc'))

/-- The candidate loop either leaves the slot unchanged or stores the
column of one of the map's entries. -/
theorem substituteOverMap_cases (m : ExprColumnMap) (e : Expression)
    (tp : EvalType) (sch : Schema) :
    substituteOverMap m e tp sch = e ∨
      ∃ kc ∈ m, substituteOverMap m e tp sch = kc.2.toExpr := by
  induction m generalizing e with
  | nil => exact Or.inl rfl
  | cons kc m ih =>
      rw [substituteOverMap_cons]
      rcases tryToSubstituteExpr_cases e kc.1 tp sch kc.2 with h | h
      · rw [h]
        rcases ih e with h' | ⟨kc', hkc', h'⟩
        · exact Or.inl h'
        · exact Or.inr ⟨kc', List.mem_cons_of_mem kc hkc', h'⟩
      · rw [h]
        rcases ih kc.2.toExpr with h' | ⟨kc', hkc', h'⟩
        · exact Or.inr ⟨kc, List.mem_cons_self kc m, h'⟩
        · exact Or.inr ⟨kc', List.mem_cons_of_mem kc hkc', h'⟩

/-- With no chained candidates, the candidate loop is idempotent on a
slot. -/
theorem substituteOverMap_idem {m : ExprColumnMap}
    (hnc : NoChainedCandidates m) (e : Expression) (tp : EvalType)
    (sch : Schema) :
    substituteOverMap m (substituteOverMap m e tp sch) tp sch =
      substituteOverMap m e tp sch := by
  rcases substituteOverMap_cases m e tp sch with h | ⟨kc, hkc, h⟩
  · rw [h, h]
  · rw [h]
    exact substituteOverMap_frozen tp sch (fun kc' hkc' => hnc kc hkc kc' hkc')

/-- A type-consistent candidate loop preserves the slot's static
type. -/
theorem substituteOverMap_getType {m : ExprColumnMap}
    (hwf : MapTypeConsistent m) (e : Expression) (tp : EvalType)
    (sch : Schema) :
    (substituteOverMap m e tp sch).getType = e.getType := by
  induction m generalizing e with
  | nil => rfl
  | cons kc m ih =>
      rw [substituteOverMap_cons]
      rw [ih (fun kc' hkc' => hwf kc' (List.mem_cons_of_mem kc hkc'))]
      exact tryToSubstituteExpr_getType e tp sch (hwf kc (List.mem_cons_self kc m))

/-- The inline aggregation check is the Matcher, call for call. -/
theorem aggInlineSubstitute_eq_tryToSubstituteExpr (e k : Expression)
    (tp : EvalType) (sch : Schema) (c : Column) :
    aggInlineSubstitute e k tp sch c = tryToSubstituteExpr e k tp sch c := rfl

/-- The aggregation candidate loop is the shared candidate loop. -/
theorem aggSubstituteOverMap_eq_substituteOverMap (m : ExprColumnMap)
    (e : Expression) (tp : EvalType) (sch : Schema) :
    aggSubstituteOverMap m e tp sch = substituteOverMap m e tp sch := rfl

/-! ### Helper lemmas: branch behavior of the expression substituter -/

/-- A column-reference condition is untouched. -/
theorem substituteExpression_column (u i : Nat) (t : FieldType)
    (m : ExprColumnMap) (sch : Schema) :
    substituteExpression (.column u i t) m sch = .column u i t := rfl

/-- A constant condition is untouched. -/
theorem substituteExpression_constant (v : Int) (t : FieldType)
    (m : ExprColumnMap) (sch : Schema) :
    substituteExpression (.constant v t) m sch = .constant v t := rfl

/-- Binary comparison: first the right operand is substituted with the
left operand's type category as expected type, then the left operand
with the (already substituted) right operand's type category. -/
theorem substituteExpression_cmp {n : String} (hn : n ∈ comparisonFuncNames)
    (t : FieldType) (a0 a1 : Expression) (m : ExprColumnMap) (sch : Schema) :
    substituteExpression (.scalarFunc n t [a0, a1]) m sch =
      .scalarFunc n t
        [substituteOverMap m a0
          (substituteOverMap m a1 a0.getType.evalTy sch).getType.evalTy sch,
         substituteOverMap m a1 a0.getType.evalTy sch] := by
  unfold substituteExpression
  rw [if_pos hn]

/-- Uniformly-typed IN list: only the first operand is substituted,
with the shared right-hand type category as expected type. -/
theorem substituteExpression_in_uniform (t : FieldType) (a0 a1 : Expression)
    (rest : List Expression) (m : ExprColumnMap) (sch : Schema)
    (h : ((a1 :: rest).all fun a => a.getType.evalTy == a1.getType.evalTy) = true) :
    substituteExpression (.scalarFunc "in" t (a0 :: a1 :: rest)) m sch =
      .scalarFunc "in" t (substituteOverMap m a0 a1.getType.evalTy sch :: a1 :: rest) := by
  unfold substituteExpression
  rw [if_neg (by decide), if_pos rfl]
  simp only [h, if_true]

/-- Heterogeneously-typed IN list: nothing is substituted. -/
theorem substituteExpression_in_mixed (t : FieldType) (a0 a1 : Expression)
    (rest : List Expression) (m : ExprColumnMap) (sch : Schema)
    (h : ((a1 :: rest).all fun a => a.getType.evalTy == a1.getType.evalTy) = false) :
    substituteExpression (.scalarFunc "in" t (a0 :: a1 :: rest)) m sch =
      .scalarFunc "in" t (a0 :: a1 :: rest) := by
  unfold substituteExpression
  rw [if_neg (by decide), if_pos rfl]
  simp only [h]
  rfl

/-- LIKE: only the subject operand is substituted, with the pattern
operand's type category as expected type. -/
theorem substituteExpression_like (t : FieldType) (a0 a1 : Expression)
    (rest : List Expression) (m : ExprColumnMap) (sch : Schema) :
    substituteExpression (.scalarFunc "like" t (a0 :: a1 :: rest)) m sch =
      .scalarFunc "like" t (substituteOverMap m a0 a1.getType.evalTy sch :: a1 :: rest) := by
  unfold substituteExpression
  rw [if_neg (by decide), if_neg (by decide), if_pos rfl]

/-- Logical AND/OR recurse into both operands. -/
theorem substituteExpression_logic {n : String} (hn : n = "or" ∨ n = "and")
    (t : FieldType) (a0 a1 : Expression) (m : ExprColumnMap) (sch : Schema) :
    substituteExpression (.scalarFunc n t [a0, a1]) m sch =
      .scalarFunc n t [substituteExpression a0 m sch, substituteExpression a1 m sch] := by
  rcases hn with hn | hn <;> subst hn <;>
    (conv_lhs => unfold substituteExpression) <;>
    rw [if_neg (by decide), if_neg (by decide), if_neg (by decide),
      if_pos (by simp)]

/-- Logical NOT recurses into its operand. -/
theorem substituteExpression_not (t : FieldType) (a0 : Expression)
    (m : ExprColumnMap) (sch : Schema) :
    substituteExpression (.scalarFunc "not" t [a0]) m sch =
      .scalarFunc "not" t [substituteExpression a0 m sch] := by
  conv_lhs => unfold substituteExpression
  rw [if_neg (by decide), if_neg (by decide), if_neg (by decide),
    if_neg (by decide), if_pos rfl]

/-- The function names the expression substituter reacts to. -/
def handledFuncNames : List String :=
  ["eq", "lt", "le", "gt", "ge", "in", "like", "or", "and", "not"]

/-- Any scalar function outside the whitelist is left completely
untouched: no recursion into its arguments. -/
theorem substituteExpression_opaque {n : String} (hn : n ∉ handledFuncNames)
    (t : FieldType) (args : List Expression) (m : ExprColumnMap) (sch : Schema) :
    substituteExpression (.scalarFunc n t args) m sch = .scalarFunc n t args := by
  simp only [handledFuncNames, List.mem_cons, List.not_mem_nil, or_false,
    not_or] at hn
  obtain ⟨h1, h2, h3, h4, h5, h6, h7, h8, h9, h10⟩ := hn
  unfold substituteExpression
  rw [if_neg (by simp [comparisonFuncNames, h1, h2, h3, h4, h5]), if_neg h6,
    if_neg h7, if_neg (not_or.mpr ⟨h8, h9⟩), if_neg h10]

/-- A recognized operator applied to no arguments is untouched (binary
and unary operators never have zero arguments; the transcription
returns the condition unchanged there). -/
theorem substituteExpression_noArgs (n : String) (t : FieldType)
    (m : ExprColumnMap) (sch : Schema) :
    substituteExpression (.scalarFunc n t []) m sch = .scalarFunc n t [] := by
  unfold substituteExpression
  repeat' split
  all_goals first | rfl | simp_all

/-- A single-argument application of anything but NOT is untouched. -/
theorem substituteExpression_one_nonNot {n : String} (hn : n ≠ "not")
    (t : FieldType) (a0 : Expression) (m : ExprColumnMap) (sch : Schema) :
    substituteExpression (.scalarFunc n t [a0]) m sch = .scalarFunc n t [a0] := by
  unfold substituteExpression
  repeat' split
  all_goals first | rfl | simp_all

/-- A comparison, AND/OR or NOT applied to three or more arguments is
untouched. -/
theorem substituteExpression_many {n : String} (hn : n ≠ "in" ∧ n ≠ "like")
    (t : FieldType) (a0 a1 a2 : Expression) (rest : List Expression)
    (m : ExprColumnMap) (sch : Schema) :
    substituteExpression (.scalarFunc n t (a0 :: a1 :: a2 :: rest)) m sch =
      .scalarFunc n t (a0 :: a1 :: a2 :: rest) := by
  unfold substituteExpression
  repeat' split
  all_goals first | rfl | simp_all

/-- A two-argument application of NOT or of an unrecognized function
is untouched. -/
theorem substituteExpression_two_misc {n : String}
    (h1 : n ∉ comparisonFuncNames) (h2 : n ≠ "in") (h3 : n ≠ "like")
    (h4 : ¬(n = "or" ∨ n = "and")) (t : FieldType) (a0 a1 : Expression)
    (m : ExprColumnMap) (sch : Schema) :
    substituteExpression (.scalarFunc n t [a0, a1]) m sch = .scalarFunc n t [a0, a1] := by
  unfold substituteExpression
  rw [if_neg h1, if_neg h2, if_neg h3, if_neg h4]
  split <;> rfl

/-- With a type-consistent, chain-free map, the expression substituter
is idempotent on every condition. -/
theorem substituteExpression_idem {m : ExprColumnMap}
    (hwf : MapTypeConsistent m) (hnc : NoChainedCandidates m) :
    ∀ (cond : Expression) (sch : Schema),
      substituteExpression (substituteExpression cond m sch) m sch =
        substituteExpression cond m sch
  | .column u i t, sch => by
      rw [substituteExpression_column, substituteExpression_column]
  | .constant v t, sch => by
      rw [substituteExpression_constant, substituteExpression_constant]
  | .scalarFunc n t [], sch => by
      rw [substituteExpression_noArgs, substituteExpression_noArgs]
  | .scalarFunc n t [a0], sch => by
      by_cases hnot : n = "not"
      · subst hnot
        rw [substituteExpression_not, substituteExpression_not,
          substituteExpression_idem hwf hnc a0 sch]
      · rw [substituteExpression_one_nonNot hnot,
          substituteExpression_one_nonNot hnot]
  | .scalarFunc n t [a0, a1], sch => by
      by_cases hcmp : n ∈ comparisonFuncNames
      · rw [substituteExpression_cmp hcmp, substituteExpression_cmp hcmp]
        have hLty : (substituteOverMap m a0
            (substituteOverMap m a1 a0.getType.evalTy sch).getType.evalTy
            sch).getType = a0.getType := substituteOverMap_getType hwf a0 _ sch
        rw [hLty, substituteOverMap_idem hnc a1 a0.getType.evalTy sch,
          substituteOverMap_idem hnc a0 _ sch]
      · by_cases hin : n = "in"
        · subst hin
          have hall : (([a1] : List Expression).all
              fun a => a.getType.evalTy == a1.getType.evalTy) = true := by simp
          rw [substituteExpression_in_uniform t a0 a1 [] m sch hall,
            substituteExpression_in_uniform t _ a1 [] m sch hall,
            substituteOverMap_idem hnc a0 a1.getType.evalTy sch]
        · by_cases hlike : n = "like"
          · subst hlike
            rw [substituteExpression_like t a0 a1 [] m sch,
              substituteExpression_like t _ a1 [] m sch,
              substituteOverMap_idem hnc a0 a1.getType.evalTy sch]
          · by_cases hlogic : n = "or" ∨ n = "and"
            · rw [substituteExpression_logic hlogic,
                substituteExpression_logic hlogic,
                substituteExpression_idem hwf hnc a0 sch,
                substituteExpression_idem hwf hnc a1 sch]
            · rw [substituteExpression_two_misc hcmp hin hlike hlogic,
                substituteExpression_two_misc hcmp hin hlike hlogic]
  | .scalarFunc n t (a0 :: a1 :: a2 :: rest), sch => by
      by_cases hin : n = "in"
      · subst hin
        by_cases hall : ((a1 :: a2 :: rest).all
            fun a => a.getType.evalTy == a1.getType.evalTy) = true
        · rw [substituteExpression_in_uniform t a0 a1 (a2 :: rest) m sch hall,
            substituteExpression_in_uniform t _ a1 (a2 :: rest) m sch hall,
            substituteOverMap_idem hnc a0 a1.getType.evalTy sch]
        · rw [Bool.not_eq_true] at hall
          rw [substituteExpression_in_mixed t a0 a1 (a2 :: rest) m sch hall,
            substituteExpression_in_mixed t a0 a1 (a2 :: rest) m sch hall]
      · by_cases hlike : n = "like"
        · subst hlike
          rw [substituteExpression_like t a0 a1 (a2 :: rest) m sch,
            substituteExpression_like t _ a1 (a2 :: rest) m sch,
            substituteOverMap_idem hnc a0 a1.getType.evalTy sch]
        · rw [substituteExpression_many ⟨hin, hlike⟩,
            substituteExpression_many ⟨hin, hlike⟩]

/-! ### Helper lemmas: membership in the collected map -/

/-- Membership after a map insertion. -/
theorem mem_mapInsert {m : ExprColumnMap} {k : Expression} {c : Column}
    {x : Expression × Column} :
    x ∈ mapInsert m k c ↔ x ∈ m ∨ x = (k, c) := by
  unfold mapInsert
  split
  · next h =>
      constructor
      · exact Or.inl
      · rintro (hx | rfl)
        · exact hx
        · exact h
  · simp

/-- The qualification test, unfolded to propositions. -/
theorem ciYields_eq_true {scols : List Column} {ci : ColumnInfo}
    {x : Expression × Column} :
    ciYields scols ci x = true ↔
      (ci.isGenerated = true ∧ ci.generatedStored = false) ∧
        colInfo2Col scols ci = some x.2 ∧ x.2.virtualExpr = some x.1 ∧
        x.2.retType = x.1.getType := by
  unfold ciYields
  simp [Bool.and_eq_true, Bool.not_eq_true', and_assoc]

/-- Membership after processing one table-column descriptor. -/
theorem mem_collectFromColInfo {scols : List Column} {ci : ColumnInfo}
    {m : ExprColumnMap} {x : Expression × Column} :
    x ∈ collectFromColInfo scols ci m ↔ x ∈ m ∨ ciYields scols ci x = true := by
  rw [ciYields_eq_true]
  unfold collectFromColInfo
  by_cases hg : (ci.isGenerated && !ci.generatedStored) = true
  case neg =>
    rw [if_neg hg]
    simp only [Bool.and_eq_true, Bool.not_eq_true'] at hg
    constructor
    · exact Or.inl
    · rintro (hx | ⟨hgs, _⟩)
      · exact hx
      · exact absurd hgs hg
  case pos =>
    rw [if_pos hg]
    simp only [Bool.and_eq_true, Bool.not_eq_true'] at hg
    obtain ⟨x1, x2⟩ := x
    cases hcol : colInfo2Col scols ci with
    | none =>
        constructor
        · exact Or.inl
        · rintro (hx | ⟨_, hc, _⟩)
          · exact hx
          · cases hc
    | some col =>
        dsimp only
        cases hve : col.virtualExpr with
        | none =>
            constructor
            · exact Or.inl
            · rintro (hx | ⟨_, hc, hv, _⟩)
              · exact hx
              · injection hc with hc
                subst hc
                rw [hve] at hv
                cases hv
        | some ve =>
            dsimp only
            by_cases hty : col.retType = ve.getType
            · rw [if_pos hty, mem_mapInsert]
              constructor
              · rintro (hx | hx)
                · exact Or.inl hx
                · injection hx with hx1 hx2
                  subst hx1; subst hx2
                  exact Or.inr ⟨hg, rfl, hve, hty⟩
              · rintro (hx | ⟨_, hc, hv, _⟩)
                · exact Or.inl hx
                · injection hc with hc
                  subst hc
                  rw [hve] at hv
                  injection hv with hv
                  subst hv
                  exact Or.inr rfl
            · rw [if_neg hty]
              constructor
              · exact Or.inl
              · rintro (hx | ⟨_, hc, hv, ht⟩)
                · exact hx
                · injection hc with hc
                  subst hc
                  rw [hve] at hv
                  injection hv with hv
                  subst hv
                  exact absurd ht hty

/-- Generic membership characterization of a left fold of map-growing
steps. -/
theorem mem_foldl_iff {α : Type} {step : ExprColumnMap → α → ExprColumnMap}
    {q : α → Expression × Column → Bool}
    (hstep : ∀ (m : ExprColumnMap) (a : α) (x : Expression × Column),
      x ∈ step m a ↔ x ∈ m ∨ q a x = true) :
    ∀ (l : List α) (m : ExprColumnMap) (x : Expression × Column),
      x ∈ l.foldl step m ↔ x ∈ m ∨ (l.any fun a => q a x) = true
  | [], m, x => by simp
  | a :: l, m, x => by
      rw [List.foldl_cons, mem_foldl_iff hstep l (step m a) x, hstep m a x]
      simp [or_assoc]

/-- Membership after processing one index key-column offset. -/
theorem mem_collectFromOffset {tcols : List ColumnInfo} {scols : List Column}
    {m : ExprColumnMap} {off : Nat} {x : Expression × Column} :
    x ∈ collectFromOffset tcols scols m off ↔
      x ∈ m ∨ offsetYields tcols scols off x = true := by
  unfold collectFromOffset offsetYields
  cases tcols[off]? with
  | some ci => exact mem_collectFromColInfo
  | none => simp

/-- Membership after processing one access path. -/
theorem mem_collectFromPath {tcols : List ColumnInfo} {scols : List Column}
    {m : ExprColumnMap} {p : AccessPath} {x : Expression × Column} :
    x ∈ collectFromPath tcols scols m p ↔
      x ∈ m ∨
        (!p.isTablePath &&
          p.indexColOffsets.any fun off => offsetYields tcols scols off x) = true := by
  unfold collectFromPath
  by_cases htp : p.isTablePath = true
  · rw [if_pos htp]
    simp [htp]
  · rw [if_neg htp]
    rw [mem_foldl_iff (fun m off x => @mem_collectFromOffset tcols scols m off x)
      p.indexColOffsets m x]
    rw [Bool.not_eq_true] at htp
    simp [htp]

mutual
/-- The collected map's membership is exactly the candidate
predicate. -/
theorem mem_collectGenerateColumn :
    ∀ (lp : LogicalPlan) (m : ExprColumnMap) (x : Expression × Column),
      x ∈ collectGenerateColumn lp m ↔ x ∈ m ∨ isCandidateIn lp x = true
  | .dataSource paths tcols sch cs, m, x => by
      simp only [collectGenerateColumn, isCandidateIn]
      rw [mem_foldl_iff (fun m p x => @mem_collectFromPath tcols sch.columns m p x)
        paths (collectList cs m) x, mem_collectList cs m x]
      simp [or_assoc]
  | .selection _ _ cs, m, x => by
      simp only [collectGenerateColumn, isCandidateIn]
      exact mem_collectList cs m x
  | .projection _ _ cs, m, x => by
      simp only [collectGenerateColumn, isCandidateIn]
      exact mem_collectList cs m x
  | .sort _ _ cs, m, x => by
      simp only [collectGenerateColumn, isCandidateIn]
      exact mem_collectList cs m x
  | .aggregation _ _ _ cs, m, x => by
      simp only [collectGenerateColumn, isCandidateIn]
      exact mem_collectList cs m x
  | .other _ cs, m, x => by
      simp only [collectGenerateColumn, isCandidateIn]
      exact mem_collectList cs m x

/-- List version of `mem_collectGenerateColumn`. -/
theorem mem_collectList :
    ∀ (cs : List LogicalPlan) (m : ExprColumnMap) (x : Expression × Column),
      x ∈ collectList cs m ↔ x ∈ m ∨ isCandidateInList cs x = true
  | [], m, x => by simp [collectList, isCandidateInList]
  | p :: ps, m, x => by
      simp only [collectList, isCandidateInList]
      rw [mem_collectList ps _ x, mem_collectGenerateColumn p m x]
      simp [or_assoc]
end

/-- A qualifying offset pairs a column with its defining expression's
exact type. -/
theorem offsetYields_types {tcols : List ColumnInfo} {scols : List Column}
    {off : Nat} {x : Expression × Column}
    (h : offsetYields tcols scols off x = true) :
    x.2.retType = x.1.getType := by
  unfold offsetYields at h
  split at h
  · exact (ciYields_eq_true.mp h).2.2.2
  · cases h

mutual
/-- Every candidate entry is type-consistent. -/
theorem isCandidateIn_types :
    ∀ (lp : LogicalPlan) (x : Expression × Column),
      isCandidateIn lp x = true → x.2.retType = x.1.getType
  | .dataSource paths tcols sch cs, x, h => by
      simp only [isCandidateIn, Bool.or_eq_true] at h
      rcases h with h | h
      · exact isCandidateInList_types cs x h
      · rw [List.any_eq_true] at h
        obtain ⟨p, _, hp⟩ := h
        rw [Bool.and_eq_true, List.any_eq_true] at hp
        obtain ⟨off, _, hoff⟩ := hp.2
        exact offsetYields_types hoff
  | .selection _ _ cs, x, h =>
      isCandidateInList_types cs x (by simpa [isCandidateIn] using h)
  | .projection _ _ cs, x, h =>
      isCandidateInList_types cs x (by simpa [isCandidateIn] using h)
  | .sort _ _ cs, x, h =>
      isCandidateInList_types cs x (by simpa [isCandidateIn] using h)
  | .aggregation _ _ _ cs, x, h =>
      isCandidateInList_types cs x (by simpa [isCandidateIn] using h)
  | .other _ cs, x, h =>
      isCandidateInList_types cs x (by simpa [isCandidateIn] using h)

/-- List version of `isCandidateIn_types`. -/
theorem isCandidateInList_types :
    ∀ (cs : List LogicalPlan) (x : Expression × Column),
      isCandidateInList cs x = true → x.2.retType = x.1.getType
  | p :: ps, x, h => by
      simp only [isCandidateInList, Bool.or_eq_true] at h
      rcases h with h | h
      · exact isCandidateIn_types p x h
      · exact isCandidateInList_types ps x h
end

/-- The map built by the collector is type-consistent. -/
theorem collect_typeConsistent (p : LogicalPlan) :
    MapTypeConsistent (collectGenerateColumn p []) := fun kc hkc => by
  rcases (mem_collectGenerateColumn p [] kc).mp hkc with h | h
  · cases h
  · exact isCandidateIn_types p kc h

/-! ### Helper lemmas: the plan substituter -/

/-- Substitution never changes a node's output schema. -/
theorem substitute_schema (lp : LogicalPlan) (m : ExprColumnMap) :
    (substitute lp m).schema = lp.schema := by
  cases lp <;> simp [substitute, LogicalPlan.schema]

/-- Substitution never changes the first child's schema. -/
theorem headSchema_substituteList (cs : List LogicalPlan) (m : ExprColumnMap) :
    headSchema (substituteList cs m) = headSchema cs := by
  cases cs with
  | nil => rfl
  | cons c cs =>
      simp only [substituteList, headSchema]
      exact substitute_schema c m

/-- Mapping an idempotent-on-image function twice is mapping it
once. -/
theorem list_map_idem {α : Type} {f g : α → α} (h : ∀ a, g (f a) = f a) :
    ∀ l : List α, (l.map f).map g = l.map f
  | [] => rfl
  | a :: l => by
      simp only [List.map_cons]
      rw [h a, list_map_idem h l]

mutual
/-- With a type-consistent, chain-free map, the plan substituter is
idempotent. -/
theorem substitute_idem {m : ExprColumnMap} (hwf : MapTypeConsistent m)
    (hnc : NoChainedCandidates m) :
    ∀ lp : LogicalPlan, substitute (substitute lp m) m = substitute lp m
  | .dataSource paths tcols sch cs => by
      simp only [substitute]
      rw [substituteList_idem hwf hnc cs]
  | .selection conds sch cs => by
      simp only [substitute]
      rw [substituteList_idem hwf hnc cs,
        list_map_idem (fun cond => substituteExpression_idem hwf hnc cond sch) conds]
  | .projection exprs sch cs => by
      simp only [substitute]
      rw [substituteList_idem hwf hnc cs, headSchema_substituteList cs m,
        list_map_idem (fun e => by
          rw [substituteOverMap_getType hwf]
          exact substituteOverMap_idem hnc e e.getType.evalTy (headSchema cs)) exprs]
  | .sort byItems sch cs => by
      simp only [substitute]
      rw [substituteList_idem hwf hnc cs,
        list_map_idem (fun b => by
          cases b with
          | mk e d =>
              dsimp only
              rw [substituteOverMap_getType hwf]
              rw [substituteOverMap_idem hnc e e.getType.evalTy sch]) byItems]
  | .aggregation aggFuncs gbItems sch cs => by
      simp only [substitute, aggSubstituteOverMap_eq_substituteOverMap]
      rw [substituteList_idem hwf hnc cs,
        list_map_idem (fun g => by
          rw [substituteOverMap_getType hwf]
          exact substituteOverMap_idem hnc g g.getType.evalTy sch) gbItems,
        list_map_idem (fun f => by
          cases f with
          | mk n as =>
              dsimp only
              rw [list_map_idem (fun a => by
                rw [substituteOverMap_getType hwf]
                exact substituteOverMap_idem hnc a a.getType.evalTy sch) as]) aggFuncs]
  | .other sch cs => by
      simp only [substitute]
      rw [substituteList_idem hwf hnc cs]

/-- List version of `substitute_idem`. -/
theorem substituteList_idem {m : ExprColumnMap} (hwf : MapTypeConsistent m)
    (hnc : NoChainedCandidates m) :
    ∀ cs : List LogicalPlan,
      substituteList (substituteList cs m) m = substituteList cs m
  | [] => rfl
  | p :: ps => by
      simp only [substituteList]
      rw [substitute_idem hwf hnc p, substituteList_idem hwf hnc ps]
end

mutual
/-- The substitution pass never touches the fields the collector
reads, so collecting after substituting collects the same map. -/
theorem collectGenerateColumn_substitute (m : ExprColumnMap) :
    ∀ (lp : LogicalPlan) (m' : ExprColumnMap),
      collectGenerateColumn (substitute lp m) m' = collectGenerateColumn lp m'
  | .dataSource paths tcols sch cs, m' => by
      simp only [substitute, collectGenerateColumn]
      rw [collectList_substitute m cs m']
  | .selection _ _ cs, m' => by
      simp only [substitute, collectGenerateColumn]
      exact collectList_substitute m cs m'
  | .projection _ _ cs, m' => by
      simp only [substitute, collectGenerateColumn]
      exact collectList_substitute m cs m'
  | .sort _ _ cs, m' => by
      simp only [substitute, collectGenerateColumn]
      exact collectList_substitute m cs m'
  | .aggregation _ _ _ cs, m' => by
      simp only [substitute, collectGenerateColumn]
      exact collectList_substitute m cs m'
  | .other _ cs, m' => by
      simp only [substitute, collectGenerateColumn]
      exact collectList_substitute m cs m'

/-- List version of `collectGenerateColumn_substitute`. -/
theorem collectList_substitute (m : ExprColumnMap) :
    ∀ (cs : List LogicalPlan) (m' : ExprColumnMap),
      collectList (substituteList cs m) m' = collectList cs m'
  | [], _ => rfl
  | p :: ps, m' => by
      simp only [substituteList, collectList]
      rw [collectGenerateColumn_substitute m p m', collectList_substitute m ps _]
end

/-- With no chained candidates, one full rule application is a fixed
point of the rule. -/
theorem optimize_twice {p : LogicalPlan}
    (hnc : NoChainedCandidates (collectGenerateColumn p [])) :
    (optimize (optimize p).1).1 = (optimize p).1 := by
  by_cases hm : (collectGenerateColumn p []).isEmpty = true
  · have h1 : optimize p = (p, none) := by
      simp only [optimize]
      rw [if_pos hm]
    simp [h1]
  · have h1 : optimize p = (substitute p (collectGenerateColumn p []), none) := by
      simp only [optimize]
      rw [if_neg hm]
    have h2 : collectGenerateColumn
        (substitute p (collectGenerateColumn p [])) [] =
        collectGenerateColumn p [] :=
      collectGenerateColumn_substitute _ p []
    rw [h1]
    simp only [optimize, h2]
    rw [if_neg hm]
    exact substitute_idem (collect_typeConsistent p) hnc p

/-! ### Claim theorems -/

/-- C1: `tryToSubstituteExpr` replaces the slot's contents with the
target column if and only if all three hold — the slot deep-equals the
candidate, the candidate's evaluation-type category equals the expected
category, and the target column is found in the schema; when any
condition fails the slot is left unchanged (the Matcher has no error
channel, so no error can ever be produced). -/
theorem tryToSubstituteExpr_substitutes_iff (e k : Expression) (tp : EvalType)
    (s : Schema) (c : Column) :
    ((exprEqual e k = true ∧ k.getType.evalTy = tp ∧ columnIndex s c ≠ -1) →
        tryToSubstituteExpr e k tp s c = c.toExpr) ∧
    (¬(exprEqual e k = true ∧ k.getType.evalTy = tp ∧ columnIndex s c ≠ -1) →
        tryToSubstituteExpr e k tp s c = e) := by
  rw [tryToSubstituteExpr_eq_ite]
  constructor
  · intro h
    rw [if_pos h]
  · intro h
    rw [if_neg h]

/-- C1 witness: a concrete matching slot is replaced. -/
theorem tryToSubstituteExpr_substitutes_iff_witness :
    tryToSubstituteExpr defExprC defExprC .int schemaAC colC = colC.toExpr :=
  (tryToSubstituteExpr_substitutes_iff defExprC defExprC .int schemaAC colC).1
    ⟨by decide, by decide, by decide⟩

/-- C2: the map built by the collector contains the entry
`definingExpression → column` exactly for the candidate columns of the
plan — those reached through a non-full-scan access path's key columns
on a data-source node, generated and not stored, resolving to a schema
column whose static type exactly equals its defining expression's type
(`isCandidateIn` transcribes exactly these conditions); and a stored
generated column can never qualify. -/
theorem collectGenerateColumn_mem_characterization (lp : LogicalPlan)
    (k : Expression) (c : Column) :
    ((k, c) ∈ collectGenerateColumn lp [] ↔ isCandidateIn lp (k, c) = true) ∧
    (∀ (scols : List Column) (ci : ColumnInfo) (x : Expression × Column),
        ci.generatedStored = true → ciYields scols ci x = false) := by
  constructor
  · rw [mem_collectGenerateColumn lp [] (k, c)]
    simp
  · intro scols ci x hst
    unfold ciYields
    rw [hst]
    simp

/-- C2 witness: the simple plan's indexed virtual column is collected,
and a stored descriptor yields nothing. -/
theorem collectGenerateColumn_mem_characterization_witness :
    (defExprC, colC) ∈ collectGenerateColumn planSimple [] ∧
      ciYields [colA] ⟨1, true, true⟩ (defExprC, colA) = false :=
  ⟨(collectGenerateColumn_mem_characterization planSimple defExprC colC).1.mpr
      (by decide),
   (collectGenerateColumn_mem_characterization planSimple defExprC colC).2
      [colA] ⟨1, true, true⟩ (defExprC, colA) rfl⟩

/-- C3: when the collector produces the empty candidate map, optimize
returns the very same plan value, paired with no error. -/
theorem optimize_empty_map_identity (lp : LogicalPlan)
    (h : collectGenerateColumn lp [] = []) :
    optimize lp = (lp, none) := by
  simp [optimize, h]

/-- C3 witness: a plan whose only access path is a full scan is
returned unchanged. -/
theorem optimize_empty_map_identity_witness :
    optimize planNoCandidates = (planNoCandidates, none) :=
  optimize_empty_map_identity planNoCandidates (by decide)

/-- C4: for the binary comparisons =, <, ≤, >, ≥ the right operand is
substituted first (trying every candidate, expected type taken from
the left operand), and only then the left operand, with expected type
taken from the possibly already substituted right operand.  The order
is observable: in the concrete scenario both operands match a
candidate, the actual run leaves the left operand `a+1` unchanged,
while substituting it against the original right operand's type would
have replaced it with `c`. -/
theorem substituteExpression_comparison_order :
    (∀ n : String, n ∈ comparisonFuncNames →
      ∀ (t : FieldType) (a0 a1 : Expression) (m : ExprColumnMap) (sch : Schema),
        substituteExpression (.scalarFunc n t [a0, a1]) m sch =
          .scalarFunc n t
            [substituteOverMap m a0
              (substituteOverMap m a1 a0.getType.evalTy sch).getType.evalTy sch,
             substituteOverMap m a1 a0.getType.evalTy sch]) ∧
    (substituteExpression (.scalarFunc "eq" ftInt [defExprC, defExprR])
        obsMap obsSchema = .scalarFunc "eq" ftInt [defExprC, colS.toExpr] ∧
      substituteOverMap obsMap defExprC defExprR.getType.evalTy obsSchema =
        colC.toExpr ∧
      colC.toExpr ≠ defExprC) := by
  refine ⟨fun n hn t a0 a1 m sch => substituteExpression_cmp hn t a0 a1 m sch,
    by decide, by decide, by decide⟩

/-- C4 witness: the characterization evaluated at a concrete
comparison. -/
theorem substituteExpression_comparison_order_witness :
    substituteExpression
        (.scalarFunc "lt" ftInt [defExprC, .constant 5 ftInt])
        [(defExprC, colC)] schemaAC =
      .scalarFunc "lt" ftInt [colC.toExpr, .constant 5 ftInt] :=
  (substituteExpression_comparison_order.1 "lt" (by decide) ftInt defExprC
    (.constant 5 ftInt) [(defExprC, colC)] schemaAC).trans (by decide)

/-- C5: for IN, substitution is attempted only on the first operand
and only when every operand after the first shares one evaluation-type
category (which becomes the expected type); if two list operands
differ in category, no operand of the IN expression is substituted. -/
theorem substituteExpression_in_gate (t : FieldType) (a0 a1 : Expression)
    (rest : List Expression) (m : ExprColumnMap) (sch : Schema) :
    ((∀ a ∈ a1 :: rest, a.getType.evalTy = a1.getType.evalTy) →
      substituteExpression (.scalarFunc "in" t (a0 :: a1 :: rest)) m sch =
        .scalarFunc "in" t
          (substituteOverMap m a0 a1.getType.evalTy sch :: a1 :: rest)) ∧
    ((∃ x ∈ a1 :: rest, ∃ y ∈ a1 :: rest, x.getType.evalTy ≠ y.getType.evalTy) →
      substituteExpression (.scalarFunc "in" t (a0 :: a1 :: rest)) m sch =
        .scalarFunc "in" t (a0 :: a1 :: rest)) := by
  constructor
  · intro h
    apply substituteExpression_in_uniform
    rw [List.all_eq_true]
    intro a ha
    rw [beq_iff_eq]
    exact h a ha
  · rintro ⟨x, hx, y, hy, hxy⟩
    cases hall : ((a1 :: rest).all fun a => a.getType.evalTy == a1.getType.evalTy) with
    | true =>
        exfalso
        rw [List.all_eq_true] at hall
        have h1 := hall x hx
        have h2 := hall y hy
        rw [beq_iff_eq] at h1 h2
        exact hxy (h1.trans h2.symm)
    | false => exact substituteExpression_in_mixed t a0 a1 rest m sch hall

/-- C5 witness: a uniform numeric IN list gets its subject
substituted. -/
theorem substituteExpression_in_gate_witness :
    substituteExpression
        (.scalarFunc "in" ftInt [defExprC, .constant 1 ftInt, .constant 2 ftInt])
        [(defExprC, colC)] schemaAC =
      .scalarFunc "in" ftInt [colC.toExpr, .constant 1 ftInt, .constant 2 ftInt] :=
  ((substituteExpression_in_gate ftInt defExprC (.constant 1 ftInt)
      [.constant 2 ftInt] [(defExprC, colC)] schemaAC).1 (by decide)).trans
    (by decide)

/-- C6: a non-scalar-function condition, or a scalar function whose
name is outside the recognized whitelist, is left completely unchanged
with no recursion into its arguments; concretely, with candidate
`a+1 → c`, the predicate `abs(a+1) = 5` is untouched while the bare
`a+1 = 5` is rewritten to `c = 5`. -/
theorem substituteExpression_opacity :
    (∀ n : String, n ∉ handledFuncNames →
      ∀ (t : FieldType) (args : List Expression) (m : ExprColumnMap) (sch : Schema),
        substituteExpression (.scalarFunc n t args) m sch = .scalarFunc n t args) ∧
    (∀ (u i : Nat) (t : FieldType) (m : ExprColumnMap) (sch : Schema),
        substituteExpression (.column u i t) m sch = .column u i t) ∧
    (∀ (v : Int) (t : FieldType) (m : ExprColumnMap) (sch : Schema),
        substituteExpression (.constant v t) m sch = .constant v t) ∧
    (substituteExpression
        (.scalarFunc "eq" ftInt [.scalarFunc "abs" ftInt [defExprC], .constant 5 ftInt])
        [(defExprC, colC)] schemaAC =
      .scalarFunc "eq" ftInt [.scalarFunc "abs" ftInt [defExprC], .constant 5 ftInt] ∧
      substituteExpression (.scalarFunc "eq" ftInt [defExprC, .constant 5 ftInt])
        [(defExprC, colC)] schemaAC =
      .scalarFunc "eq" ftInt [colC.toExpr, .constant 5 ftInt]) :=
  ⟨fun n hn t args m sch => substituteExpression_opaque hn t args m sch,
   fun _ _ _ _ _ => rfl, fun _ _ _ _ => rfl, by decide, by decide⟩

/-- C6 witness: an unrecognized function with a matching argument is
untouched. -/
theorem substituteExpression_opacity_witness :
    substituteExpression (.scalarFunc "abs" ftInt [defExprC])
        [(defExprC, colC)] schemaAC =
      .scalarFunc "abs" ftInt [defExprC] :=
  substituteExpression_opacity.1 "abs" (by decide) ftInt [defExprC]
    [(defExprC, colC)] schemaAC

/-- C7: a projection substitutes its expressions against the schema of
its first child, while selection, sort and aggregation use the node's
own schema; concretely, a projection whose target column is visible
only in its own schema is untouched, one whose target column is
visible in the child is rewritten, and a sort with the column in its
own schema is rewritten. -/
theorem substitute_schema_scopes :
    (∀ (exprs : List Expression) (sch : Schema) (child : LogicalPlan)
        (cs : List LogicalPlan) (m : ExprColumnMap),
      substitute (.projection exprs sch (child :: cs)) m =
        .projection
          (exprs.map fun e => substituteOverMap m e e.getType.evalTy child.schema)
          sch (substituteList (child :: cs) m)) ∧
    (∀ (conds : List Expression) (sch : Schema) (cs : List LogicalPlan)
        (m : ExprColumnMap),
      substitute (.selection conds sch cs) m =
        .selection (conds.map fun cond => substituteExpression cond m sch) sch
          (substituteList cs m)) ∧
    (∀ (byItems : List ByItem) (sch : Schema) (cs : List LogicalPlan)
        (m : ExprColumnMap),
      substitute (.sort byItems sch cs) m =
        .sort
          (byItems.map fun b =>
            { b with expr := substituteOverMap m b.expr b.expr.getType.evalTy sch })
          sch (substituteList cs m)) ∧
    (∀ (aggFuncs : List AggFuncDesc) (gbItems : List Expression) (sch : Schema)
        (cs : List LogicalPlan) (m : ExprColumnMap),
      substitute (.aggregation aggFuncs gbItems sch cs) m =
        .aggregation
          (aggFuncs.map fun f =>
            { f with args := f.args.map fun a =>
                aggSubstituteOverMap m a a.getType.evalTy sch })
          (gbItems.map fun g => aggSubstituteOverMap m g g.getType.evalTy sch)
          sch (substituteList cs m)) ∧
    (substitute (.projection [defExprC] ⟨[colC]⟩ [.other ⟨[colA]⟩ []])
        [(defExprC, colC)] =
      .projection [defExprC] ⟨[colC]⟩ [.other ⟨[colA]⟩ []] ∧
      substitute (.projection [defExprC] ⟨[]⟩ [.other ⟨[colA, colC]⟩ []])
        [(defExprC, colC)] =
      .projection [colC.toExpr] ⟨[]⟩ [.other ⟨[colA, colC]⟩ []] ∧
      substitute (.sort [⟨defExprC, false⟩] schemaAC []) [(defExprC, colC)] =
      .sort [⟨colC.toExpr, false⟩] schemaAC []) := by
  refine ⟨fun exprs sch child cs m => ?_, fun conds sch cs m => ?_,
    fun byItems sch cs m => ?_, fun aggFuncs gbItems sch cs m => ?_,
    by rfl, by rfl, by rfl⟩ <;> simp [substitute, headSchema]

/-- C8: the inline equality/type/schema check of the aggregation
branch has exactly the effect of `tryToSubstituteExpr`, call for call
and over whole candidate loops. -/
theorem aggregation_inline_matcher_equiv :
    (∀ (e k : Expression) (tp : EvalType) (sch : Schema) (c : Column),
        aggInlineSubstitute e k tp sch c = tryToSubstituteExpr e k tp sch c) ∧
    (∀ (m : ExprColumnMap) (e : Expression) (tp : EvalType) (sch : Schema),
        aggSubstituteOverMap m e tp sch = substituteOverMap m e tp sch) :=
  ⟨fun _ _ _ _ _ => rfl, fun _ _ _ _ => rfl⟩

/-- C9 counterexample: on `planChained` — whose table carries a virtual
column `c` as `(a+1)` and a virtual column `d` as `(c)`, both indexed,
with the index on `d` listed first — the first pass rewrites the sort
key `a+1` to `c` and the second pass rewrites that `c` to `d`, so
applying optimize twice does not yield the result of applying it
once. -/
theorem optimize_not_idempotent_cex :
    (optimize (optimize planChained).1).1 ≠ (optimize planChained).1 := fun h =>
  absurd (congrArg sortKeys h) (by decide)

/-- C9 amended: optimize is idempotent provided no collected column,
viewed as an expression, deep-equals any collected defining expression
(no generated column is defined as a bare reference to another
collected generated column). -/
theorem optimize_idempotent_of_no_chained_candidates (p : LogicalPlan)
    (hnc : NoChainedCandidates (collectGenerateColumn p [])) :
    (optimize (optimize p).1).1 = (optimize p).1 :=
  optimize_twice hnc

/-- C9 witness: the simple plan has no chained candidates, and on it a
second pass changes nothing. -/
theorem optimize_idempotent_of_no_chained_candidates_witness :
    (optimize (optimize planSimple).1).1 = (optimize planSimple).1 :=
  optimize_idempotent_of_no_chained_candidates planSimple (by decide)

/-- C10: whenever the Matcher, called with an entry of the collected
map, actually replaces a slot, the replacing column's evaluation-type
category equals that of the expression it replaces. -/
theorem substitution_preserves_evalType (p : LogicalPlan) (k : Expression)
    (c : Column) (hmem : (k, c) ∈ collectGenerateColumn p [])
    (e : Expression) (tp : EvalType) (sch : Schema)
    (hfire : tryToSubstituteExpr e k tp sch c = c.toExpr) :
    c.retType.evalTy = e.getType.evalTy := by
  rw [tryToSubstituteExpr_eq_ite] at hfire
  by_cases hg : exprEqual e k = true ∧ k.getType.evalTy = tp ∧ columnIndex sch c ≠ -1
  · have htype : c.retType = k.getType := collect_typeConsistent p (k, c) hmem
    rw [htype, exprEqual_getType hg.1]
  · rw [if_neg hg] at hfire
    rw [hfire]
    rfl

/-- C10 witness: the collected entry of the simple plan fires on the
sort key and preserves its category. -/
theorem substitution_preserves_evalType_witness :
    colC.retType.evalTy = defExprC.getType.evalTy :=
  substitution_preserves_evalType planSimple defExprC colC (by decide) defExprC
    .int schemaAC (by decide)

end GcSubstitute
